import Mathlib

/-
Verification of the quick-notes-api core (NotesService + NotesRepository).

The embedding is shallow and pure:
  * `Note` mirrors `src/notes/entities/note.entity.ts`; the two `Date`
    timestamps are modelled as `Nat` milliseconds since the epoch.
  * Nondeterministic inputs of the service (`uuidv4()`, `new Date()`) become
    explicit parameters (`newId`, `now`).
  * The JSON file owned by `NotesRepository` is modelled as the list of notes
    it holds; each service method receives the collection that
    `repository.readNotes()` returned and, when it mutates, yields the
    collection passed to `repository.writeNotes(...)`.
  * Thrown `NotFoundException`s become `Except.error` results.
  * For persistence round-trips, the serialized form produced by
    `JSON.stringify` (where a `Date` becomes a string and `JSON.parse` leaves
    it a string) is modelled by `StoredNote`.
-/

/-- The Note entity of `src/notes/entities/note.entity.ts`.  `createdAt` and
`updatedAt` are JavaScript `Date` values, modelled as milliseconds since the
epoch. -/
structure Note where
  id : String
  title : String
  content : String
  tags : List String
  createdAt : Nat
  updatedAt : Nat
deriving Repr, DecidableEq, Inhabited

/-- Modelled from the spec: `create-note.dto.ts` is not among the provided
source files.  Its shape follows the spec's create input
`{title, content, tags?}` (§4.2) and the service's usage of
`createNoteDto.tags`: `title` and `content` are required, `tags` is optional
(`none` models an absent key in the JSON body). -/
structure CreateNoteDto where
  title : String
  content : String
  tags : Option (List String)
deriving Repr, DecidableEq

/-- `UpdateNoteDto` of `src/notes/dto/update-note.dto.ts`:
`PartialType(CreateNoteDto)` makes every field of `CreateNoteDto` optional.
`none` models a key absent from the JSON body, so that the object spread
`{...note, ...updateNoteDto}` keeps the old value exactly for absent keys. -/
structure UpdateNoteDto where
  title : Option String
  content : Option String
  tags : Option (List String)
deriving Repr, DecidableEq

/-- The errors the core can signal.  `notFound` is the `NotFoundException`
thrown by the service; the two storage errors are the spec's names (§7) for
the failures `NotesRepository.readNotes` lets escape (the raw file-system
error when the file cannot be accessed, the `JSON.parse` error when its
content cannot be parsed). -/
inductive ApiError where
  | notFound (id : String)
  | storageUnavailable
  | storageCorrupt
deriving Repr, DecidableEq

namespace NotesService

/-- `NotesService.create` (notes.service.ts): builds
`{ id: uuidv4(), ...createNoteDto, tags: createNoteDto.tags || [],
createdAt: now, updatedAt: now }`, pushes it onto the collection read from
the repository, writes the collection back and returns the new note.
`newId` is the `uuidv4()` result, `now` the `new Date()` result, `notes` the
collection `readNotes()` returned.  The second component is the collection
passed to `writeNotes`. -/
def create (createNoteDto : CreateNoteDto) (newId : String) (now : Nat)
    (notes : List Note) : Note × List Note :=
  let newNote : Note :=
    { id := newId
      title := createNoteDto.title
      content := createNoteDto.content
      tags := createNoteDto.tags.getD []
      createdAt := now
      updatedAt := now }
  (newNote, notes ++ [newNote])

/-- `NotesService.findAll` (notes.service.ts): returns the collection read
from the repository as is.  The implemented method takes no search
parameter. -/
def findAll (notes : List Note) : List Note :=
  notes

/-- `NotesService.findOne` (notes.service.ts): `notes.find(n => n.id === id)`,
throwing `NotFoundException` when there is no match. -/
def findOne (id : String) (notes : List Note) : Except ApiError Note :=
  match notes.find? (fun n => n.id == id) with
  | some note => .ok note
  | none => .error (.notFound id)

/-- The object literal `{ ...notes[noteIndex], ...updateNoteDto,
updatedAt: new Date() }` of `NotesService.update`: keys present in the patch
overwrite, absent keys keep the old value, and the trailing `updatedAt`
always wins.  `id` and `createdAt` are not fields of `UpdateNoteDto`, so the
spread leaves them as in the old note. -/
def mergePatch (old : Note) (updateNoteDto : UpdateNoteDto) (now : Nat) : Note :=
  { id := old.id
    title := updateNoteDto.title.getD old.title
    content := updateNoteDto.content.getD old.content
    tags := updateNoteDto.tags.getD old.tags
    createdAt := old.createdAt
    updatedAt := now }

/-- `NotesService.update` (notes.service.ts): `findIndex`, throw
`NotFoundException` on `-1` (before any write), otherwise merge the patch
over `notes[noteIndex]`, assign the merge back at `noteIndex` and write the
collection.  Returns the merged note and the collection passed to
`writeNotes`. -/
def update (id : String) (updateNoteDto : UpdateNoteDto) (now : Nat)
    (notes : List Note) : Except ApiError (Note × List Note) :=
  match notes.findIdx? (fun n => n.id == id) with
  | none => .error (.notFound id)
  | some noteIndex =>
      let updatedNote := mergePatch (notes.getD noteIndex default) updateNoteDto now
      .ok (updatedNote, notes.set noteIndex updatedNote)

/-- `NotesService.remove` (notes.service.ts): `findIndex`, throw
`NotFoundException` on `-1` (before any write), otherwise
`notes.splice(noteIndex, 1)` and write the collection. -/
def remove (id : String) (notes : List Note) : Except ApiError (List Note) :=
  match notes.findIdx? (fun n => n.id == id) with
  | none => .error (.notFound id)
  | some noteIndex => .ok (notes.eraseIdx noteIndex)

/-- One whole `update` call seen from the durable file: the result returned
to the caller together with the file content afterwards.  The exception on a
missing id is thrown before `writeNotes`, so the file keeps its previous
content in that case. -/
def updateRun (id : String) (updateNoteDto : UpdateNoteDto) (now : Nat)
    (notes : List Note) : Except ApiError Note × List Note :=
  match update id updateNoteDto now notes with
  | .ok (n, written) => (.ok n, written)
  | .error e => (.error e, notes)

/-- One whole `remove` call seen from the durable file, as `updateRun`. -/
def removeRun (id : String) (notes : List Note) :
    Except ApiError Unit × List Note :=
  match remove id notes with
  | .ok written => (.ok (), written)
  | .error e => (.error e, notes)

end NotesService

/-- A note as it sits in `data/notes.json` and as `JSON.parse` returns it in
a fresh process: `JSON.stringify` turns the two `Date` fields into strings
and `JSON.parse` leaves them strings. -/
structure StoredNote where
  id : String
  title : String
  content : String
  tags : List String
  createdAt : String
  updatedAt : String
deriving Repr, DecidableEq

/-- Serialization of a `Date` inside `JSON.stringify`
(`Date.prototype.toISOString`), modelled as an injective textual encoding of
the millisecond timestamp; the exact ISO-8601 calendar rendering is not
load-bearing for any claim. -/
def isoString (t : Nat) : String :=
  toString t

/-- The JSON object `JSON.stringify` produces for one note. -/
def serializeNote (n : Note) : StoredNote :=
  { id := n.id
    title := n.title
    content := n.content
    tags := n.tags
    createdAt := isoString n.createdAt
    updatedAt := isoString n.updatedAt }

namespace NotesRepository

/-- `NotesRepository.writeNotes` (notes.repository.ts):
`JSON.stringify(notes)` — the persisted document is the list of serialized
notes.  A later `JSON.parse` of this document returns exactly these
`StoredNote` values. -/
def writeNotes (notes : List Note) : List StoredNote :=
  notes.map serializeNote

end NotesRepository

namespace NotesService

/-- `NotesService.findOne` as it executes in a fresh process, where the
collection `JSON.parse` returned consists of `StoredNote` values (the
repository's `Promise<Note[]>` annotation notwithstanding, the timestamp
fields are strings after a reload); the scan compares `id` fields exactly as
before. -/
def findOneStored (id : String) (stored : List StoredNote) :
    Except ApiError StoredNote :=
  match stored.find? (fun n => n.id == id) with
  | some note => .ok note
  | none => .error (.notFound id)

end NotesService

/-- The state of the durable file underneath `NotesRepository`:
inaccessible, accessible but not parseable as a note collection, or a stored
collection. -/
inductive FileState where
  | unavailable
  | corrupt (raw : String)
  | stored (notes : List Note)

namespace NotesRepository

/-- `NotesRepository.readNotes` (notes.repository.ts): `readFile` followed by
`JSON.parse`, with no catch anywhere.  An inaccessible file makes `readFile`
throw (the spec's `StorageUnavailableError`); unparsable content makes
`JSON.parse` throw (the spec's `StorageCorruptError`); otherwise the parsed
collection is returned.  No branch returns an empty collection on failure. -/
def readNotes (fs : FileState) : Except ApiError (List Note) :=
  match fs with
  | .unavailable => .error .storageUnavailable
  | .corrupt _ => .error .storageCorrupt
  | .stored notes => .ok notes

end NotesRepository

namespace NotesService

/-- `findAll` including the repository read it starts with. -/
def findAllOp (fs : FileState) : Except ApiError (List Note) :=
  (NotesRepository.readNotes fs).map findAll

/-- `findOne` including the repository read it starts with. -/
def findOneOp (id : String) (fs : FileState) : Except ApiError Note :=
  (NotesRepository.readNotes fs).bind (findOne id)

/-- `create` including the repository read it starts with. -/
def createOp (createNoteDto : CreateNoteDto) (newId : String) (now : Nat)
    (fs : FileState) : Except ApiError (Note × List Note) :=
  (NotesRepository.readNotes fs).map (create createNoteDto newId now)

/-- `update` including the repository read it starts with. -/
def updateOp (id : String) (updateNoteDto : UpdateNoteDto) (now : Nat)
    (fs : FileState) : Except ApiError (Note × List Note) :=
  (NotesRepository.readNotes fs).bind (update id updateNoteDto now)

/-- `remove` including the repository read it starts with. -/
def removeOp (id : String) (fs : FileState) : Except ApiError (List Note) :=
  (NotesRepository.readNotes fs).bind (remove id)

end NotesService

/-- Lower-casing of one character as `String.prototype.toLowerCase` acts on
it, at the level of code points (ASCII letters shift by 32). -/
def lowerCode (c : Char) : Nat :=
  if 65 ≤ c.toNat ∧ c.toNat ≤ 90 then c.toNat + 32 else c.toNat

/-- The code points of a string after lower-casing. -/
def lowerCodes (s : String) : List Nat :=
  s.data.map lowerCode

/-- Whether `pat` occurs at the very start of `text`. -/
def matchesAt : List Nat → List Nat → Bool
  | [], _ => true
  | _ :: _, [] => false
  | a :: as, b :: bs => a == b && matchesAt as bs

/-- Whether `pat` occurs as a contiguous run somewhere in `text`
(JavaScript `text.includes(pat)`). -/
def occursIn (pat : List Nat) : List Nat → Bool
  | [] => matchesAt pat []
  | b :: rest => matchesAt pat (b :: rest) || occursIn pat rest

/-- Modelled from the spec: whether one note matches a search term — "a
case-insensitive substring match against `title`, `content`, and each
element of `tags`; a record matches if the term appears in at least one of
these fields" (§4.2 findAll).  The implemented service has no such check. -/
def noteMatches (term : String) (n : Note) : Bool :=
  occursIn (lowerCodes term) (lowerCodes n.title) ||
  occursIn (lowerCodes term) (lowerCodes n.content) ||
  n.tags.any (fun tag => occursIn (lowerCodes term) (lowerCodes tag))

/-- Modelled from the spec: the list operation the spec describes —
"findAll(searchTerm?: text)": absent or empty term returns the full
sequence unmodified, a present term filters by `noteMatches`, keeping the
original order (§4.2).  This is the behavior the README also documents
(`GET /notes` with optional `?search=query`); the implemented
`NotesService.findAll` takes no search parameter at all. -/
def specFindAll (searchTerm : Option String) (notes : List Note) : List Note :=
  match searchTerm with
  | none => notes
  | some term =>
      if term = "" then notes
      else notes.filter (noteMatches term)

/-- The states of the durable collection reachable from the empty collection
by the service operations, under a non-decreasing clock.  `Reachable t notes`
holds when `notes` can be the persisted collection at time `t`: the file
starts empty (`initialize()` writes `[]`), time may pass, and each mutating
operation runs at some time `t'` no earlier than the current one.
`findAll`/`findOne` never write, so they are covered by `tick`. -/
inductive Reachable : Nat → List Note → Prop where
  | init (t : Nat) : Reachable t []
  | tick {t notes} (t2 : Nat) :
      Reachable t notes → t ≤ t2 → Reachable t2 notes
  | create {t notes} (dto : CreateNoteDto) (newId : String) (t2 : Nat) :
      Reachable t notes → t ≤ t2 →
      Reachable t2 (NotesService.create dto newId t2 notes).2
  | update {t notes n notes2} (id : String) (dto : UpdateNoteDto) (t2 : Nat) :
      Reachable t notes → t ≤ t2 →
      NotesService.update id dto t2 notes = .ok (n, notes2) →
      Reachable t2 notes2
  | remove {t notes notes2} (id : String) :
      Reachable t notes →
      NotesService.remove id notes = .ok notes2 →
      Reachable t notes2

/-- A successful `findIdx?` yields an in-range index whose element (as the
service reads it with `notes[noteIndex]`) satisfies the predicate. -/
theorem findIdx?_some_spec {α : Type} [Inhabited α] {p : α → Bool}
    {l : List α} {i : Nat} (h : l.findIdx? p = some i) :
    i < l.length ∧ p (l.getD i default) = true := by
  rcases List.findIdx?_eq_some_iff_getElem.mp h with ⟨hlt, hp, _⟩
  exact ⟨hlt, by rwa [List.getD_eq_getElem _ _ hlt]⟩

/-- Inversion of a successful `update`: it found the id at some index, the
returned note is the merge over the note at that index, and the written
collection is the old one with that index replaced. -/
theorem update_ok_inv {id : String} {dto : UpdateNoteDto} {now : Nat}
    {notes : List Note} {n : Note} {notes2 : List Note}
    (h : NotesService.update id dto now notes = .ok (n, notes2)) :
    ∃ i, notes.findIdx? (fun m => m.id == id) = some i ∧
      i < notes.length ∧
      n = NotesService.mergePatch (notes.getD i default) dto now ∧
      notes2 = notes.set i n := by
  unfold NotesService.update at h
  cases hidx : notes.findIdx? (fun m => m.id == id) with
  | none => rw [hidx] at h; exact absurd h (by simp)
  | some i =>
      rw [hidx] at h
      simp only [Except.ok.injEq, Prod.mk.injEq] at h
      obtain ⟨hn, hns⟩ := h
      exact ⟨i, rfl, (findIdx?_some_spec hidx).1, hn.symm, by rw [← hns, hn]⟩

/-- C7: `create` returns a record carrying the generated id, the input title
and content, `createdAt` and `updatedAt` both set to the one current
timestamp (so `updatedAt == createdAt` immediately after create), `tags`
defaulted to the empty sequence exactly when omitted, and the collection it
persists is the loaded collection with the new record appended at the end —
every pre-existing record unchanged and in its original order. -/
theorem create_spec (dto : CreateNoteDto) (newId : String) (now : Nat)
    (notes : List Note) :
    (NotesService.create dto newId now notes).1.id = newId ∧
    (NotesService.create dto newId now notes).1.title = dto.title ∧
    (NotesService.create dto newId now notes).1.content = dto.content ∧
    (NotesService.create dto newId now notes).1.tags = dto.tags.getD [] ∧
    (NotesService.create dto newId now notes).1.createdAt = now ∧
    (NotesService.create dto newId now notes).1.updatedAt = now ∧
    (NotesService.create dto newId now notes).1.updatedAt =
      (NotesService.create dto newId now notes).1.createdAt ∧
    (NotesService.create dto newId now notes).2 =
      notes ++ [(NotesService.create dto newId now notes).1] :=
  ⟨rfl, rfl, rfl, rfl, rfl, rfl, rfl, rfl⟩

/-- The first record of the spec's search example. -/
def reactNote : Note :=
  { id := "n1"
    title := "React Hook"
    content := "no match"
    tags := ["frontend"]
    createdAt := 0
    updatedAt := 0 }

/-- The second record of the spec's search example. -/
def unrelatedNote : Note :=
  { id := "n2"
    title := "Unrelated"
    content := "nothing"
    tags := []
    createdAt := 0
    updatedAt := 0 }

/-- C1, refuted on the code: the implemented `findAll` takes no search term
and never filters.  On the spec's own example the claim demands that
searching "react" return only the first record — `specFindAll` (the
spec-modelled search) indeed returns exactly that — but the service returns
both records, so the code diverges from the claim exactly on non-empty
search terms (the absent/empty-term half is the only part the code
implements). -/
theorem findAll_search_missing :
    NotesService.findAll [reactNote, unrelatedNote] = [reactNote, unrelatedNote] ∧
    specFindAll (some "react") [reactNote, unrelatedNote] = [reactNote] ∧
    specFindAll none [reactNote, unrelatedNote] = [reactNote, unrelatedNote] ∧
    NotesService.findAll [reactNote, unrelatedNote] ≠
      specFindAll (some "react") [reactNote, unrelatedNote] := by
  refine ⟨rfl, by decide, rfl, by decide⟩

/-- C3: on a collection whose record with the target id sits at index `i`,
`update` succeeds with the merged record — each field present in the patch
takes the patch's value, each absent field keeps its previous value,
`updatedAt` becomes the current time — and the written collection is the old
one with exactly position `i` replaced by that record: the record keeps its
position and every other record is untouched. -/
theorem update_merges_in_place (notes : List Note) (id : String)
    (dto : UpdateNoteDto) (now : Nat) (i : Nat)
    (hidx : notes.findIdx? (fun n => n.id == id) = some i)
    (hlt : i < notes.length) :
    NotesService.update id dto now notes =
      .ok ({ id := notes[i].id
             title := dto.title.getD notes[i].title
             content := dto.content.getD notes[i].content
             tags := dto.tags.getD notes[i].tags
             createdAt := notes[i].createdAt
             updatedAt := now },
           notes.set i
             { id := notes[i].id
               title := dto.title.getD notes[i].title
               content := dto.content.getD notes[i].content
               tags := dto.tags.getD notes[i].tags
               createdAt := notes[i].createdAt
               updatedAt := now }) := by
  unfold NotesService.update
  rw [hidx]
  simp only [List.getD_eq_getElem _ _ hlt]
  rfl

/-- Witness for C3: updating only the title of `{A, B, [x]}` yields
`{Z, B, [x]}` with the new `updatedAt`, in place. -/
theorem update_merges_in_place_witness :
    NotesService.update "a" ⟨some "Z", none, none⟩ 7
        [{ id := "a", title := "A", content := "B", tags := ["x"],
           createdAt := 1, updatedAt := 1 }] =
      .ok ({ id := "a", title := "Z", content := "B", tags := ["x"],
             createdAt := 1, updatedAt := 7 },
           [{ id := "a", title := "Z", content := "B", tags := ["x"],
              createdAt := 1, updatedAt := 7 }]) :=
  update_merges_in_place
    [{ id := "a", title := "A", content := "B", tags := ["x"],
       createdAt := 1, updatedAt := 1 }]
    "a" ⟨some "Z", none, none⟩ 7 0 (by decide) (by decide)

/-- C5: whatever the patch, a successful `update` returns a record carrying
the same `id` and the same `createdAt` as the record it replaces; the typed
patch (`UpdateNoteDto`) has no `id` or `createdAt` key, so no patch can ever
alter these two fields. -/
theorem update_preserves_id_createdAt {notes : List Note} {id : String}
    {dto : UpdateNoteDto} {now : Nat} {n2 : Note} {notes2 : List Note}
    (h : NotesService.update id dto now notes = .ok (n2, notes2)) :
    ∃ i, ∃ hlt : i < notes.length,
      notes.findIdx? (fun n => n.id == id) = some i ∧
      n2.id = notes[i].id ∧ n2.createdAt = notes[i].createdAt := by
  obtain ⟨i, hidx, hlt, hn, _⟩ := update_ok_inv h
  refine ⟨i, hlt, hidx, ?_, ?_⟩ <;>
    simp [hn, List.getD_eq_getElem _ _ hlt, NotesService.mergePatch,
      List.getElem?_eq_getElem hlt]

/-- Witness for C5 at a concrete input: a patch changing every optional
field still leaves `id` and `createdAt` untouched. -/
theorem update_preserves_id_createdAt_witness :
    ∃ i, ∃ hlt : i <
      [({ id := "a", title := "A", content := "B", tags := ["x"],
          createdAt := 1, updatedAt := 1 } : Note)].length,
      [({ id := "a", title := "A", content := "B", tags := ["x"],
          createdAt := 1, updatedAt := 1 } : Note)].findIdx?
          (fun n => n.id == "a") = some i ∧
      ({ id := "a", title := "Z", content := "Y", tags := ["q"],
         createdAt := 1, updatedAt := 9 } : Note).id =
        [({ id := "a", title := "A", content := "B", tags := ["x"],
            createdAt := 1, updatedAt := 1 } : Note)][i].id ∧
      ({ id := "a", title := "Z", content := "Y", tags := ["q"],
         createdAt := 1, updatedAt := 9 } : Note).createdAt =
        [({ id := "a", title := "A", content := "B", tags := ["x"],
            createdAt := 1, updatedAt := 1 } : Note)][i].createdAt :=
  update_preserves_id_createdAt
    (show NotesService.update "a" ⟨some "Z", some "Y", some ["q"]⟩ 9
        [{ id := "a", title := "A", content := "B", tags := ["x"],
           createdAt := 1, updatedAt := 1 }] =
      .ok ({ id := "a", title := "Z", content := "Y", tags := ["q"],
             createdAt := 1, updatedAt := 9 },
           [{ id := "a", title := "Z", content := "Y", tags := ["q"],
              createdAt := 1, updatedAt := 9 }]) from rfl)

/-- The scan of `findOne` misses exactly when no record carries the id. -/
theorem find?_id_none_iff {notes : List Note} {id : String} :
    notes.find? (fun n => n.id == id) = none ↔ ∀ n ∈ notes, ¬ n.id = id := by
  rw [List.find?_eq_none]
  simp

/-- The scan of `update`/`remove` misses exactly when no record carries the
id. -/
theorem findIdx?_id_none_iff {notes : List Note} {id : String} :
    notes.findIdx? (fun n => n.id == id) = none ↔ ∀ n ∈ notes, ¬ n.id = id := by
  rw [List.findIdx?_eq_none_iff]
  simp

/-- C4: `findOne`, `update` and `remove` signal the not-found error exactly
when no record with the requested id exists in the collection they read, and
a failed `update` or `remove` leaves the persisted collection exactly as it
was — the exception is thrown before any write. -/
theorem notFound_exactly_when_absent (notes : List Note) (id : String)
    (dto : UpdateNoteDto) (now : Nat) :
    (NotesService.findOne id notes = .error (.notFound id) ↔
      ∀ n ∈ notes, ¬ n.id = id) ∧
    (NotesService.update id dto now notes = .error (.notFound id) ↔
      ∀ n ∈ notes, ¬ n.id = id) ∧
    (NotesService.remove id notes = .error (.notFound id) ↔
      ∀ n ∈ notes, ¬ n.id = id) ∧
    ((∀ n ∈ notes, ¬ n.id = id) →
      (NotesService.updateRun id dto now notes).2 = notes ∧
      (NotesService.removeRun id notes).2 = notes) := by
  refine ⟨?_, ?_, ?_, fun habs => ?_⟩
  · unfold NotesService.findOne
    rw [← find?_id_none_iff]
    cases notes.find? (fun n => n.id == id) <;> simp
  · unfold NotesService.update
    rw [← findIdx?_id_none_iff]
    cases notes.findIdx? (fun n => n.id == id) <;> simp
  · unfold NotesService.remove
    rw [← findIdx?_id_none_iff]
    cases notes.findIdx? (fun n => n.id == id) <;> simp
  · have hnone := findIdx?_id_none_iff.mpr habs
    unfold NotesService.updateRun NotesService.removeRun
      NotesService.update NotesService.remove
    rw [hnone]
    exact ⟨rfl, rfl⟩

/-- Witness for C4 at a concrete input: on a one-record collection and a
missing id, `update` fails and the collection written back is untouched. -/
theorem notFound_exactly_when_absent_witness :
    (NotesService.updateRun "zz" ⟨some "Z", none, none⟩ 9
        [{ id := "a", title := "A", content := "B", tags := ["x"],
           createdAt := 1, updatedAt := 1 }]).2 =
      [{ id := "a", title := "A", content := "B", tags := ["x"],
         createdAt := 1, updatedAt := 1 }] :=
  ((notFound_exactly_when_absent
      [{ id := "a", title := "A", content := "B", tags := ["x"],
         createdAt := 1, updatedAt := 1 }]
      "zz" ⟨some "Z", none, none⟩ 9).2.2.2 (by decide)).1

/-- The successful `remove` of an id carried by exactly one record equals
filtering that id out of the collection. -/
theorem remove_unique_eq_filter (X : String) (notes : List Note)
    (hone : notes.countP (fun n => n.id == X) = 1) :
    NotesService.remove X notes = .ok (notes.filter (fun n => !(n.id == X))) := by
  induction notes with
  | nil => simp at hone
  | cons a l ih =>
      rw [List.countP_cons] at hone
      by_cases hpa : (a.id == X) = true
      · rw [if_pos hpa] at hone
        have hzero : l.countP (fun n => n.id == X) = 0 := by omega
        have hkeep : l.filter (fun n => !(n.id == X)) = l := by
          rw [List.filter_eq_self]
          intro b hb
          have hbf := List.countP_eq_zero.mp hzero b hb
          simp only [Bool.not_eq_true] at hbf
          simp [hbf]
        unfold NotesService.remove
        rw [List.findIdx?_cons, if_pos hpa, List.filter_cons]
        simp [hpa, hkeep]
      · rw [if_neg hpa] at hone
        have hrec := ih hone
        unfold NotesService.remove at hrec ⊢
        cases hj : List.findIdx? (fun n => n.id == X) l with
        | none => rw [hj] at hrec; exact absurd hrec (by simp)
        | some j =>
            rw [hj] at hrec
            simp only [Except.ok.injEq] at hrec
            rw [List.findIdx?_cons, if_neg hpa, List.findIdx?_succ, hj]
            rw [show Option.map (fun i => i + 1) (some j) = some (j + 1) from rfl]
            show Except.ok ((a :: l).eraseIdx (j + 1)) =
              Except.ok (List.filter (fun n => !(n.id == X)) (a :: l))
            rw [List.eraseIdx_cons_succ, hrec, List.filter_cons]
            simp [hpa]

/-- C6: removing id `X` from a collection that contains exactly one record
with that id writes back the old collection with precisely that record
dropped: the result is the gap-free filter of the others, one element
shorter, free of `X` — every other record unchanged and in its original
relative order. -/
theorem remove_deletes_exactly_one (notes : List Note) (X : String)
    (hone : notes.countP (fun n => n.id == X) = 1) :
    NotesService.remove X notes = .ok (notes.filter (fun n => !(n.id == X))) ∧
    (notes.filter (fun n => !(n.id == X))).length = notes.length - 1 ∧
    (∀ n ∈ notes.filter (fun n => !(n.id == X)), ¬ n.id = X) := by
  refine ⟨remove_unique_eq_filter X notes hone, ?_, ?_⟩
  · have hsplit := List.length_eq_countP_add_countP (fun n => n.id == X) notes
    have hflen := List.countP_eq_length_filter
      (fun n => decide ¬(n.id == X) = true) notes
    have hsame : notes.filter (fun n => decide ¬(n.id == X) = true) =
        notes.filter (fun n => !(n.id == X)) := by
      apply List.filter_congr
      intro b _
      cases hb : b.id == X <;> simp [hb]
    rw [hsame] at hflen
    omega
  · intro n hn
    have := (List.mem_filter.mp hn).2
    simpa using this

/-- Witness for C6 at a concrete two-record collection. -/
theorem remove_deletes_exactly_one_witness :
    NotesService.remove "a"
        [{ id := "a", title := "A", content := "B", tags := ["x"],
           createdAt := 1, updatedAt := 1 },
         { id := "b", title := "T", content := "C", tags := [],
           createdAt := 2, updatedAt := 2 }] =
      .ok ([{ id := "a", title := "A", content := "B", tags := ["x"],
              createdAt := 1, updatedAt := 1 },
            { id := "b", title := "T", content := "C", tags := [],
              createdAt := 2, updatedAt := 2 }].filter
             (fun n => !(n.id == "a"))) :=
  (remove_deletes_exactly_one
      [{ id := "a", title := "A", content := "B", tags := ["x"],
         createdAt := 1, updatedAt := 1 },
       { id := "b", title := "T", content := "C", tags := [],
         createdAt := 2, updatedAt := 2 }]
      "a" (by decide)).1

/-- C2: creating a note and immediately fetching it by its generated id
returns exactly the created record, and the same fetch still succeeds with
the same record after the collection has been written to disk and re-read in
a fresh process: what `findOne` then returns is precisely the serialization
of the created record, i.e. the record round-trips unchanged through
`JSON.stringify`/`JSON.parse`.  The hypothesis is the freshness of the
generated id (the spec's uniqueness assumption on `uuidv4()`). -/
theorem create_findOne_roundtrip (notes : List Note) (dto : CreateNoteDto)
    (newId : String) (now : Nat)
    (hfresh : ∀ n ∈ notes, ¬ n.id = newId) :
    NotesService.findOne (NotesService.create dto newId now notes).1.id
        (NotesService.create dto newId now notes).2 =
      .ok (NotesService.create dto newId now notes).1 ∧
    NotesService.findOneStored (NotesService.create dto newId now notes).1.id
        (NotesRepository.writeNotes (NotesService.create dto newId now notes).2) =
      .ok (serializeNote (NotesService.create dto newId now notes).1) := by
  have hmiss : notes.find? (fun n => n.id == newId) = none := by
    rw [List.find?_eq_none]
    intro n hn
    simpa using hfresh n hn
  constructor
  · unfold NotesService.findOne
    show (match (notes ++
        [(NotesService.create dto newId now notes).1]).find?
          (fun n => n.id == newId) with
      | some note => Except.ok note
      | none => Except.error (ApiError.notFound newId)) = _
    rw [List.find?_append, hmiss, Option.none_or,
      List.find?_cons_of_pos _ (by simp [NotesService.create])]
  · have hmiss2 : (notes.map serializeNote).find?
        (fun n => n.id == newId) = none := by
      rw [List.find?_eq_none]
      intro sn hsn
      obtain ⟨n, hn, rfl⟩ := List.mem_map.mp hsn
      simpa [serializeNote] using hfresh n hn
    unfold NotesService.findOneStored NotesRepository.writeNotes
    show (match ((notes ++
        [(NotesService.create dto newId now notes).1]).map serializeNote).find?
          (fun n => n.id == newId) with
      | some note => Except.ok note
      | none => Except.error (ApiError.notFound newId)) = _
    rw [List.map_append, List.find?_append, hmiss2, Option.none_or]
    show (match List.find? (fun n => n.id == newId)
        (List.map serializeNote [(NotesService.create dto newId now notes).1]) with
      | some note => Except.ok note
      | none => Except.error (ApiError.notFound newId)) = _
    rw [show List.map serializeNote [(NotesService.create dto newId now notes).1] =
        [serializeNote (NotesService.create dto newId now notes).1] from rfl,
      List.find?_cons_of_pos _ (by simp [serializeNote, NotesService.create])]

/-- Witness for C2: create on the empty collection, fetch before and after
the persistence round-trip. -/
theorem create_findOne_roundtrip_witness :
    NotesService.findOne
        (NotesService.create ⟨"T", "C", some ["x"]⟩ "u1" 5 []).1.id
        (NotesService.create ⟨"T", "C", some ["x"]⟩ "u1" 5 []).2 =
      .ok (NotesService.create ⟨"T", "C", some ["x"]⟩ "u1" 5 []).1 ∧
    NotesService.findOneStored
        (NotesService.create ⟨"T", "C", some ["x"]⟩ "u1" 5 []).1.id
        (NotesRepository.writeNotes
          (NotesService.create ⟨"T", "C", some ["x"]⟩ "u1" 5 []).2) =
      .ok (serializeNote (NotesService.create ⟨"T", "C", some ["x"]⟩ "u1" 5 []).1) :=
  create_findOne_roundtrip [] ⟨"T", "C", some ["x"]⟩ "u1" 5 (by decide)

/-- C8: the repository read fails with the corrupt-storage error exactly
when the durable content exists but cannot be parsed, and with the
unavailable-storage error exactly when the location cannot be accessed; and
every service operation propagates such a read failure to its caller
unchanged — none of them catches it, retries, or silently substitutes an
empty collection. -/
theorem storage_errors_propagate (fs : FileState) (id newId : String)
    (dto : CreateNoteDto) (udto : UpdateNoteDto) (now : Nat) :
    (NotesRepository.readNotes fs = .error .storageCorrupt ↔
      ∃ raw, fs = .corrupt raw) ∧
    (NotesRepository.readNotes fs = .error .storageUnavailable ↔
      fs = .unavailable) ∧
    (∀ e, NotesRepository.readNotes fs = .error e →
      NotesService.findAllOp fs = .error e ∧
      NotesService.findOneOp id fs = .error e ∧
      NotesService.createOp dto newId now fs = .error e ∧
      NotesService.updateOp id udto now fs = .error e ∧
      NotesService.removeOp id fs = .error e) := by
  cases fs <;>
    simp [NotesRepository.readNotes, NotesService.findAllOp,
      NotesService.findOneOp, NotesService.createOp, NotesService.updateOp,
      NotesService.removeOp, Except.map, Except.bind]

/-- Witness for C8: on unparsable durable content every operation surfaces
the corrupt-storage error. -/
theorem storage_errors_propagate_witness :
    NotesService.findAllOp (FileState.corrupt "oops") =
        .error .storageCorrupt ∧
    NotesService.removeOp "a" (FileState.corrupt "oops") =
        .error .storageCorrupt :=
  have h := (storage_errors_propagate (FileState.corrupt "oops") "a" "u1"
      ⟨"T", "C", none⟩ ⟨none, none, none⟩ 0).2.2 .storageCorrupt rfl
  ⟨h.1, h.2.2.2.2⟩

/-- Every record of a reachable collection has ordered timestamps, both
bounded by the current clock. -/
theorem reachable_timestamps {t : Nat} {notes : List Note}
    (h : Reachable t notes) :
    ∀ n ∈ notes, n.createdAt ≤ n.updatedAt ∧ n.updatedAt ≤ t := by
  induction h with
  | init t => intro n hn; simp at hn
  | tick t2 _ hle ih =>
      intro n hn
      exact ⟨(ih n hn).1, le_trans (ih n hn).2 hle⟩
  | create dto newId t2 _ hle ih =>
      intro n hn
      rcases List.mem_append.mp hn with hmem | hmem
      · exact ⟨(ih n hmem).1, le_trans (ih n hmem).2 hle⟩
      · rw [List.mem_singleton] at hmem
        subst hmem
        exact ⟨le_refl _, le_refl _⟩
  | update id dto t2 hre hle heq ih =>
      rename_i t1 notes1 n1 notes21
      obtain ⟨i, hidx, hlt, hn2, hns⟩ := update_ok_inv heq
      intro m hm
      rw [hns] at hm
      rcases List.mem_or_eq_of_mem_set hm with hmem | rfl
      · exact ⟨(ih m hmem).1, le_trans (ih m hmem).2 hle⟩
      · have hold : notes1.getD i default ∈ notes1 := by
          rw [List.getD_eq_getElem _ _ hlt]
          exact List.getElem_mem hlt
        have hinv := ih _ hold
        rw [hn2]
        refine ⟨?_, le_refl _⟩
        exact le_trans hinv.1 (le_trans hinv.2 hle)
  | remove id hre heq ih =>
      rename_i notes notes2
      intro m hm
      unfold NotesService.remove at heq
      cases hj : List.findIdx? (fun n => n.id == id) notes with
      | none => rw [hj] at heq; exact absurd heq (by simp)
      | some j =>
          rw [hj] at heq
          simp only [Except.ok.injEq] at heq
          have : m ∈ notes := by
            rw [← heq] at hm
            exact (List.eraseIdx_sublist notes j).subset hm
          exact ih m this

/-- C9: in every state reachable from the empty collection by any sequence
of service operations under a non-decreasing clock, every stored record
satisfies `updatedAt >= createdAt`. -/
theorem reachable_updatedAt_ge_createdAt {t : Nat} {notes : List Note}
    (h : Reachable t notes) :
    ∀ n ∈ notes, n.createdAt ≤ n.updatedAt :=
  fun n hn => (reachable_timestamps h n hn).1

/-- Witness for C9: a state built by a create at time 3 followed by an
update at time 7 satisfies the invariant. -/
theorem reachable_updatedAt_ge_createdAt_witness :
    ({ id := "u1", title := "Z", content := "C", tags := [],
       createdAt := 3, updatedAt := 7 } : Note).createdAt ≤
      ({ id := "u1", title := "Z", content := "C", tags := [],
         createdAt := 3, updatedAt := 7 } : Note).updatedAt :=
  reachable_updatedAt_ge_createdAt
    (Reachable.update "u1" ⟨some "Z", none, none⟩ 7
      (Reachable.create ⟨"T", "C", none⟩ "u1" 3 (Reachable.init 0)
        (by decide))
      (by decide) rfl)
    { id := "u1", title := "Z", content := "C", tags := [],
      createdAt := 3, updatedAt := 7 }
    (by decide)

/-- C10: an `update` with the empty patch on an existing record is not a
pure no-op.  The caller gets back the old record with only `updatedAt`
replaced by the current time, the whole collection — with that record
replaced in place — is written back to the repository, and whenever the
fresh `updatedAt` differs from the old one the written collection really
differs from the one read. -/
theorem update_empty_patch_not_noop (notes : List Note) (id : String)
    (now : Nat) (i : Nat)
    (hidx : notes.findIdx? (fun n => n.id == id) = some i)
    (hlt : i < notes.length) :
    (NotesService.updateRun id ⟨none, none, none⟩ now notes).1 =
      .ok { notes[i] with updatedAt := now } ∧
    (NotesService.updateRun id ⟨none, none, none⟩ now notes).2 =
      notes.set i { notes[i] with updatedAt := now } ∧
    (¬ notes[i].updatedAt = now →
      ¬ (NotesService.updateRun id ⟨none, none, none⟩ now notes).2 = notes) := by
  have hupd : NotesService.update id ⟨none, none, none⟩ now notes =
      .ok ({ notes[i] with updatedAt := now },
           notes.set i { notes[i] with updatedAt := now }) := by
    unfold NotesService.update
    rw [hidx]
    simp only [List.getD_eq_getElem _ _ hlt]
    rfl
  have hrun : NotesService.updateRun id ⟨none, none, none⟩ now notes =
      (.ok { notes[i] with updatedAt := now },
       notes.set i { notes[i] with updatedAt := now }) := by
    unfold NotesService.updateRun
    rw [hupd]
  refine ⟨by rw [hrun], by rw [hrun], ?_⟩
  intro hne hcontra
  rw [hrun] at hcontra
  have hgetD := congrArg (fun l => l.getD i default) hcontra
  simp only at hgetD
  rw [List.getD_eq_getElem _ _ (by simpa using hlt),
    List.getD_eq_getElem _ _ hlt, List.getElem_set_self] at hgetD
  exact hne (congrArg Note.updatedAt hgetD.symm ▸ rfl)

/-- Witness for C10: the empty patch at time 7 on a record last updated at
time 1 keeps all payload fields, bumps `updatedAt` and rewrites the
collection. -/
theorem update_empty_patch_not_noop_witness :
    (NotesService.updateRun "a" ⟨none, none, none⟩ 7
        [{ id := "a", title := "A", content := "B", tags := ["x"],
           createdAt := 1, updatedAt := 1 }]).1 =
      .ok { id := "a", title := "A", content := "B", tags := ["x"],
            createdAt := 1, updatedAt := 7 } ∧
    ¬ (NotesService.updateRun "a" ⟨none, none, none⟩ 7
        [{ id := "a", title := "A", content := "B", tags := ["x"],
           createdAt := 1, updatedAt := 1 }]).2 =
      [{ id := "a", title := "A", content := "B", tags := ["x"],
         createdAt := 1, updatedAt := 1 }] :=
  have h := update_empty_patch_not_noop
    [{ id := "a", title := "A", content := "B", tags := ["x"],
       createdAt := 1, updatedAt := 1 }]
    "a" 7 0 (by decide) (by decide)
  ⟨h.1, h.2.2 (by decide)⟩
